import Mathlib

/-!
Verification of the GraymapImage single-header PGM/PBM loader.

The source file GraymapImage.h is shallowly embedded here.  Bytes of the
input file are modelled as Nat values in 0..255.  A C++ input stream over
an in-memory byte sequence is modelled as the list of remaining bytes plus
a fail flag; eofbit discovered at the end of the buffer is represented by
the buffer being empty, and failbit by the flag, since in the loader every
read on a stream with eofbit set immediately turns it into failbit via the
sentry.  Machine integers are Nat with explicit modular reduction where the
source can overflow (unsigned int is 32 bits, unsigned short 16 bits,
unsigned char 8 bits).
-/

namespace Graymap

/-- Byte-level whitespace test: models isspace in the C locale
(space 32 and the control characters 9..13). -/
def isspaceB (c : Nat) : Bool := decide (c = 32 ∨ (9 ≤ c ∧ c ≤ 13))

/-- Decimal digit test used by the numeric parser of operator>> (characters 0..9,
codes 48..57). -/
def isDigitB (c : Nat) : Bool := decide (48 ≤ c ∧ c ≤ 57)

/-- State of a C++ input stream over an in-memory byte sequence: the remaining
bytes, and whether failbit is set. -/
structure IStream where
  buf : List Nat
  fail : Bool
deriving DecidableEq

/-- Drop leading whitespace characters, as the skipws sentry of formatted
extraction does. -/
def skipWs : List Nat → List Nat
  | [] => []
  | c :: cs => if isspaceB c then skipWs cs else c :: cs

/-- Read one line: the characters before the first LF, consuming the LF;
models std::getline on a string buffer. -/
def getlineStr : List Nat → List Nat × List Nat
  | [] => ([], [])
  | c :: cs =>
    if c = 10 then ([], cs)
    else
      let p := getlineStr cs
      (c :: p.1, p.2)

/-- Longest prefix of decimal digits of the buffer together with the
remainder; stage 2 of num_get for the default (decimal) stream flags. -/
def takeDigits : List Nat → List Nat × List Nat
  | [] => ([], [])
  | c :: cs =>
    if isDigitB c then
      let p := takeDigits cs
      (c :: p.1, p.2)
    else ([], c :: cs)

/-- Numeric value of a big-endian decimal digit string; stage 3 of num_get. -/
def digitsVal (ds : List Nat) : Nat := ds.foldl (fun a c => a * 10 + (c - 48)) 0

/-- Formatted extraction of an unsigned integer whose largest representable
value is maxRep; models operator>> into unsigned int (maxRep 4294967295) and
unsigned short (maxRep 65535) under C++11 semantics.  The first component is
the value stored into the target, or none when the sentry fails and the
target is left unmodified: a failed conversion stores 0, an out-of-range
value (including a negated nonzero value) stores maxRep, both with failbit. -/
def extractUInt (maxRep : Nat) (s : IStream) : Option Nat × IStream :=
  if s.fail then (none, s)
  else
    match skipWs s.buf with
    | [] => (none, ⟨[], true⟩)
    | c :: cs =>
      let sgn := if c = 43 then (false, cs) else if c = 45 then (true, cs) else (false, c :: cs)
      let p := takeDigits sgn.2
      if p.1 = [] then (some 0, ⟨p.2, true⟩)
      else
        let v := digitsVal p.1
        if maxRep < v then (some maxRep, ⟨p.2, true⟩)
        else if sgn.1 then
          if v = 0 then (some 0, ⟨p.2, false⟩) else (some maxRep, ⟨p.2, true⟩)
        else (some v, ⟨p.2, false⟩)

/-- Formatted extraction into unsigned char: the character overload of
operator>>, which skips whitespace and then reads a single character.
Returns none when the sentry fails (stream already failed, or end of input
reached while skipping whitespace) and the target is left unmodified. -/
def extractUChar (s : IStream) : Option Nat × IStream :=
  if s.fail then (none, s)
  else
    match skipWs s.buf with
    | [] => (none, ⟨[], true⟩)
    | c :: cs => (some c, ⟨cs, false⟩)

/-- Unformatted read of a single byte, models stream.read(ptr, 1): no
whitespace skipping; on a failed stream or at end of input nothing is read
and the target byte is left unmodified. -/
def readByte (s : IStream) : Option Nat × IStream :=
  if s.fail then (none, s)
  else
    match s.buf with
    | [] => (none, ⟨[], true⟩)
    | c :: cs => (some c, ⟨cs, false⟩)

/-- The loader loop "while (isspace(stream.peek())) read one byte": on a
failed stream peek returns EOF and the loop exits at once; otherwise it
consumes exactly the leading whitespace bytes. -/
def skipWsStream (s : IStream) : IStream :=
  if s.fail then s else ⟨skipWs s.buf, false⟩

/-- Resize of a std::vector of unsigned char: new elements are
value-initialized to zero, shrinking keeps a prefix. -/
def listResize (l : List Nat) (n : Nat) : List Nat :=
  if n ≤ l.length then l.take n else l ++ List.replicate (n - l.length) 0

/-- The in-memory image object of GraymapImage.h: pixel buffer of unsigned
char values, width and height (unsigned int), and the maximum pixel value
(unsigned short). -/
structure GraymapImage where
  _data : List Nat
  _width : Nat
  _height : Nat
  _max_value : Nat
deriving DecidableEq

/-- Default-constructed GraymapImage: empty buffer, zero dimensions,
max value 255. -/
def defaultGraymap : GraymapImage := ⟨[], 0, 0, 255⟩

/-- Accessor IsInitialized: width and height nonzero and nonempty buffer. -/
def IsInitialized (img : GraymapImage) : Bool :=
  img._width != 0 && img._height != 0 && decide (0 < img._data.length)

/-- Accessor GetWidth. -/
def GetWidth (img : GraymapImage) : Nat := img._width

/-- Accessor GetHeight. -/
def GetHeight (img : GraymapImage) : Nat := img._height

/-- Accessor GetMaxValue. -/
def GetMaxValue (img : GraymapImage) : Nat := img._max_value

/-- Accessor GetPixel: returns _data.at(y * _width + x).  The index is
computed in unsigned int arithmetic (hence the modulus); vector::at throws
out_of_range for an index past the end, modelled as none. -/
def GetPixel (img : GraymapImage) (x y : Nat) : Option Nat :=
  img._data.get? ((y * img._width + x) % 4294967296)

/-- Magic token of the ascii bitmap format, the string P1. -/
def p1Magic : List Nat := [80, 49]

/-- Magic token of the ascii graymap format, the string P2. -/
def p2Magic : List Nat := [80, 50]

/-- Magic token of the binary bitmap format, the string P4. -/
def p4Magic : List Nat := [80, 52]

/-- Magic token of the binary graymap format, the string P5. -/
def p5Magic : List Nat := [80, 53]

/-- The condition of the max-value block in LoadImage, transcribed from the
source: formatBuffer.compare(P2) != 0 OR formatBuffer.compare(P5) != 0. -/
def needsMax (fb : List Nat) : Bool :=
  !(fb == p2Magic) || !(fb == p5Magic)

/-- Inner loop of the P1 decoder over one row: n columns remain, the current
column is i and the row offset is jw.  Each step performs
stream >> _data[i + j * _width] (single-character extraction, target
unmodified on failure) followed by _data[i + j * _width] *= 255 in unsigned
char arithmetic. -/
def p1Row (jw : Nat) : Nat → Nat → List Nat → IStream → List Nat × IStream
  | 0, _, data, s => (data, s)
  | n + 1, i, data, s =>
    let r := extractUChar s
    let d1 := match r.1 with
      | some v => data.set (i + jw) v
      | none => data
    let d2 := d1.set (i + jw) (d1.getD (i + jw) 0 * 255 % 256)
    p1Row jw n (i + 1) d2 r.2

/-- Outer loop of the P1 decoder: m rows remain, the current row is j. -/
def p1Rows (w : Nat) : Nat → Nat → List Nat → IStream → List Nat × IStream
  | 0, _, data, s => (data, s)
  | m + 1, j, data, s =>
    let r := p1Row (j * w) w 0 data s
    p1Rows w m (j + 1) r.1 r.2

/-- Inner loop of the P2 decoder over one row: like the P1 row but without
the scaling by 255. -/
def p2Row (jw : Nat) : Nat → Nat → List Nat → IStream → List Nat × IStream
  | 0, _, data, s => (data, s)
  | n + 1, i, data, s =>
    let r := extractUChar s
    let d1 := match r.1 with
      | some v => data.set (i + jw) v
      | none => data
    p2Row jw n (i + 1) d1 r.2

/-- Outer loop of the P2 decoder. -/
def p2Rows (w : Nat) : Nat → Nat → List Nat → IStream → List Nat × IStream
  | 0, _, data, s => (data, s)
  | m + 1, j, data, s =>
    let r := p2Row (j * w) w 0 data s
    p2Rows w m (j + 1) r.1 r.2

/-- Bit unpacking loop of the P4 decoder over one byte temp: k runs from 0
to 7, the target index is i + k + jw, and the loop breaks as soon as the
index reaches the buffer size.  The stored value is
((temp AND (1 shifted left by 7 - k)) shifted right by 7 - k) * 255.
The first argument is a structural fuel equal to the number of remaining
iterations (8 at the entry of the loop). -/
def p4BitGo (temp jw i : Nat) : Nat → Nat → List Nat → List Nat
  | 0, _, data => data
  | fuel + 1, k, data =>
    let index := i + k + jw
    if data.length ≤ index then data
    else p4BitGo temp jw i fuel (k + 1)
      (data.set index (((temp &&& (1 <<< (7 - k))) >>> (7 - k)) * 255))

/-- Column loop of the P4 decoder over one row: i starts at 0 and advances
by 8 while i < w; each iteration reads one byte (temp stays 0 when the read
fails) and unpacks its bits.  The first Nat argument is a structural fuel;
any fuel of at least w iterations is enough, the loader passes w. -/
def p4Row (w jw : Nat) : Nat → Nat → List Nat → IStream → List Nat × IStream
  | 0, _, data, s => (data, s)
  | fuel + 1, i, data, s =>
    if i < w then
      let r := readByte s
      let temp := r.1.getD 0
      let d1 := p4BitGo temp jw i 8 0 data
      p4Row w jw fuel (i + 8) d1 r.2
    else (data, s)

/-- Row loop of the P4 decoder. -/
def p4Rows (w : Nat) : Nat → Nat → List Nat → IStream → List Nat × IStream
  | 0, _, data, s => (data, s)
  | m + 1, j, data, s =>
    let r := p4Row w (j * w) w 0 data s
    p4Rows w m (j + 1) r.1 r.2

/-- Inner loop of the P5 decoder over one row: reads one raw byte per pixel
into _data[i + j * _width], target unmodified when the read fails. -/
def p5Row (jw : Nat) : Nat → Nat → List Nat → IStream → List Nat × IStream
  | 0, _, data, s => (data, s)
  | n + 1, i, data, s =>
    let r := readByte s
    let d1 := match r.1 with
      | some v => data.set (i + jw) v
      | none => data
    p5Row jw n (i + 1) d1 r.2

/-- Outer loop of the P5 decoder. -/
def p5Rows (w : Nat) : Nat → Nat → List Nat → IStream → List Nat × IStream
  | 0, _, data, s => (data, s)
  | m + 1, j, data, s =>
    let r := p5Row (j * w) w 0 data s
    p5Rows w m (j + 1) r.1 r.2

/-- Pixel decoding dispatch of LoadImage: the if / else-if chain on the
format token.  The P4 and P5 branches first run the whitespace-skipping
loop on the stream. -/
def decodePixels (fb : List Nat) (w h : Nat) (data : List Nat) (s : IStream) :
    List Nat × IStream :=
  if fb = p1Magic then p1Rows w h 0 data s
  else if fb = p2Magic then p2Rows w h 0 data s
  else if fb = p4Magic then p4Rows w h 0 data (skipWsStream s)
  else if fb = p5Magic then p5Rows w h 0 data (skipWsStream s)
  else (data, s)

/-- Body of LoadImage after the magic token has been accepted: optional
single comment line, width and height extraction, buffer resize, the
max-value block guarded by the condition needsMax from the source, and the
pixel decoding dispatch.  Member variables left unmodified by a failed
extraction keep their previous values, hence the getD on the previous
fields. -/
def loadImageAfterMagic (img : GraymapImage) (fb rest1 : List Nat) :
    Bool × GraymapImage :=
  let rest2 := if rest1.head? = some 35 then (getlineStr rest1).2 else rest1
  let s0 : IStream := ⟨rest2, rest2.isEmpty⟩
  let rw := extractUInt 4294967295 s0
  let w := rw.1.getD img._width
  let rh := extractUInt 4294967295 rw.2
  let h := rh.1.getD img._height
  let data0 := listResize img._data (w * h % 4294967296)
  if needsMax fb then
    let rm := extractUInt 65535 rh.2
    let m := rm.1.getD img._max_value
    if 255 < m then (false, ⟨data0, w, h, m⟩)
    else (true, ⟨(decodePixels fb w h data0 rm.2).1, w, h, m⟩)
  else (true, ⟨(decodePixels fb w h data0 rh.2).1, w, h, img._max_value⟩)

/-- LoadImage on the byte contents of a file: reads the first line, rejects
any magic token other than P1, P2, P4 or P5 leaving the object untouched,
and otherwise runs the header parse and pixel decode.  Returns the C++
return value together with the image object after the call. -/
def LoadImage (img : GraymapImage) (file : List Nat) : Bool × GraymapImage :=
  let g := getlineStr file
  if g.1 ≠ p1Magic ∧ g.1 ≠ p2Magic ∧ g.1 ≠ p4Magic ∧ g.1 ≠ p5Magic then (false, img)
  else loadImageAfterMagic img g.1 g.2

/-- LoadImage on a file that may fail to open: when the ifstream cannot be
opened, getline extracts nothing, formatBuffer stays empty, the magic check
fails and the object is returned untouched. -/
def LoadImageFile (img : GraymapImage) (contents : Option (List Nat)) :
    Bool × GraymapImage :=
  match contents with
  | none => (false, img)
  | some bytes => LoadImage img bytes

/-- Variant of the LoadImage body written from the words of the spec for the
refinement claim about the max-value guard: the max-value block is executed
unconditionally, with no guard at all.  Everything else is identical to
loadImageAfterMagic. -/
def loadImageAfterMagicAlwaysMax (img : GraymapImage) (fb rest1 : List Nat) :
    Bool × GraymapImage :=
  let rest2 := if rest1.head? = some 35 then (getlineStr rest1).2 else rest1
  let s0 : IStream := ⟨rest2, rest2.isEmpty⟩
  let rw := extractUInt 4294967295 s0
  let w := rw.1.getD img._width
  let rh := extractUInt 4294967295 rw.2
  let h := rh.1.getD img._height
  let data0 := listResize img._data (w * h % 4294967296)
  let rm := extractUInt 65535 rh.2
  let m := rm.1.getD img._max_value
  if 255 < m then (false, ⟨data0, w, h, m⟩)
  else (true, ⟨(decodePixels fb w h data0 rm.2).1, w, h, m⟩)

/-- Variant of LoadImage that always consumes a max-value token, written
from the words of the spec for the refinement claim about the tautological
guard. -/
def LoadImageAlwaysMax (img : GraymapImage) (file : List Nat) : Bool × GraymapImage :=
  let g := getlineStr file
  if g.1 ≠ p1Magic ∧ g.1 ≠ p2Magic ∧ g.1 ≠ p4Magic ∧ g.1 ≠ p5Magic then (false, img)
  else loadImageAfterMagicAlwaysMax img g.1 g.2

/-- Bytes of a textual header followed by a body: magic, LF, width digits,
space, height digits, LF, max-value digits, LF, then the body. -/
def ppmFile (magic Wds Hds Mds body : List Nat) : List Nat :=
  magic ++ 10 :: (Wds ++ 32 :: (Hds ++ 10 :: (Mds ++ 10 :: body)))

/-- Sequential overwrite of a list: write the bytes bs at consecutive
positions starting at idx.  Proof helper describing what the decode loops
do to the buffer. -/
def setSeq : List Nat → Nat → List Nat → List Nat
  | data, _, [] => data
  | data, i, b :: bs => setSeq (data.set i b) (i + 1) bs

/-- The guard of the max-value block is a tautology: it is true for every
format token, because no token equals both P2 and P5. -/
theorem needsMax_true (fb : List Nat) : needsMax fb = true := by
  by_cases h : fb = p2Magic
  · subst h
    decide
  · simp [needsMax, h]

/-- Reading a line from a buffer that is a LF-free prefix followed by LF
returns that prefix and the remainder. -/
theorem getlineStr_append (l r : List Nat) (h : 10 ∉ l) :
    getlineStr (l ++ 10 :: r) = (l, r) := by
  induction l with
  | nil => simp [getlineStr]
  | cons c cs ih =>
    have hc : c ≠ 10 := fun hc => h (by simp [hc])
    have hcs : 10 ∉ cs := fun hm => h (List.mem_cons_of_mem _ hm)
    simp [getlineStr, hc, ih hcs]

/-- Skipping whitespace ignores an all-whitespace prefix. -/
theorem skipWs_ws_append (pre l : List Nat) (h : ∀ c ∈ pre, isspaceB c = true) :
    skipWs (pre ++ l) = skipWs l := by
  induction pre with
  | nil => simp
  | cons c cs ih =>
    have hc := h c (List.mem_cons_self c cs)
    simp [skipWs, hc, ih fun d hd => h d (List.mem_cons_of_mem _ hd)]

/-- Skipping whitespace stops at a non-whitespace head. -/
theorem skipWs_cons_nws (c : Nat) (l : List Nat) (h : isspaceB c = false) :
    skipWs (c :: l) = c :: l := by
  simp [skipWs, h]

/-- Digits are not whitespace. -/
theorem isDigitB_not_ws (c : Nat) (h : isDigitB c = true) : isspaceB c = false := by
  simp only [isDigitB, decide_eq_true_eq] at h
  simp only [isspaceB, decide_eq_false_iff_not]
  omega

/-- Taking the digit prefix of a digit string followed by a non-digit (or
empty) remainder returns exactly that digit string. -/
theorem takeDigits_append (ds post : List Nat)
    (hds : ∀ c ∈ ds, isDigitB c = true)
    (hpost : ∀ c, post.head? = some c → isDigitB c = false) :
    takeDigits (ds ++ post) = (ds, post) := by
  induction ds with
  | nil =>
    cases post with
    | nil => simp [takeDigits]
    | cons c cs =>
      have hc := hpost c rfl
      simp [takeDigits, hc]
  | cons c cs ih =>
    have hc := hds c (List.mem_cons_self c cs)
    have := ih fun d hd => hds d (List.mem_cons_of_mem _ hd)
    simp [takeDigits, hc, this]

/-- Formatted unsigned extraction from a buffer made of optional leading
whitespace, a nonempty digit string whose value is representable, and a
remainder that does not begin with a digit: the extraction succeeds, stores
the value of the digit string and leaves exactly the remainder. -/
theorem extractUInt_digits (maxRep : Nat) (pre ds post : List Nat)
    (hpre : ∀ c ∈ pre, isspaceB c = true)
    (hne : ds ≠ [])
    (hds : ∀ c ∈ ds, isDigitB c = true)
    (hpost : ∀ c, post.head? = some c → isDigitB c = false)
    (hv : digitsVal ds ≤ maxRep) :
    extractUInt maxRep ⟨pre ++ (ds ++ post), false⟩ = (some (digitsVal ds), ⟨post, false⟩) := by
  obtain ⟨d, ds', rfl⟩ := List.exists_cons_of_ne_nil hne
  have hd : isDigitB d = true := hds d (List.mem_cons_self d ds')
  have hdnum : 48 ≤ d ∧ d ≤ 57 := by
    simpa [isDigitB, decide_eq_true_eq] using hd
  have hskip : skipWs (pre ++ (d :: ds' ++ post)) = d :: (ds' ++ post) := by
    rw [skipWs_ws_append pre _ hpre]
    exact skipWs_cons_nws d _ (isDigitB_not_ws d hd)
  have hd43 : d ≠ 43 := by omega
  have hd45 : d ≠ 45 := by omega
  have htake : takeDigits (d :: ds' ++ post) = (d :: ds', post) :=
    takeDigits_append (d :: ds') post hds hpost
  have hnlt : ¬ maxRep < digitsVal (d :: ds') := by omega
  simp only [extractUInt, Bool.false_eq_true, if_false, hskip, hd43, if_neg, hd45,
    ite_false]
  rw [List.cons_append] at htake
  simp [htake, hnlt]

/-- Resizing the empty buffer produces n zero bytes. -/
theorem listResize_nil (n : Nat) : listResize [] n = List.replicate n 0 := by
  cases n with
  | zero => simp [listResize]
  | succ m => simp [listResize]

/-- Writing a concatenation sequentially is writing the two parts one after
the other. -/
theorem setSeq_append (xs : List Nat) : ∀ (data : List Nat) (idx : Nat) (ys : List Nat),
    setSeq data idx (xs ++ ys) = setSeq (setSeq data idx xs) (idx + xs.length) ys := by
  induction xs with
  | nil => intro data idx ys; simp [setSeq]
  | cons x xs ih =>
    intro data idx ys
    simp only [List.cons_append, setSeq, List.length_cons, List.append_eq]
    rw [ih]
    have harith : idx + 1 + xs.length = idx + (xs.length + 1) := by omega
    rw [harith]

/-- Setting an in-range position splits the list around the new element. -/
theorem set_eq_take_cons_drop (l : List Nat) : ∀ (n b : Nat), n < l.length →
    l.set n b = l.take n ++ b :: l.drop (n + 1) := by
  induction l with
  | nil => intro n b h; simp at h
  | cons a l ih =>
    intro n b h
    cases n with
    | zero => simp
    | succ m =>
      simp only [List.length_cons, Nat.succ_lt_succ_iff] at h
      simp [ih m b h]

/-- Taking one past a position just set yields the prefix plus the new
element. -/
theorem take_set_succ (l : List Nat) : ∀ (n b : Nat), n < l.length →
    (l.set n b).take (n + 1) = l.take n ++ [b] := by
  induction l with
  | nil => intro n b h; simp at h
  | cons a l ih =>
    intro n b h
    cases n with
    | zero => simp
    | succ m =>
      simp only [List.length_cons, Nat.succ_lt_succ_iff] at h
      simp [ih m b h]

/-- Dropping strictly past a set position forgets the write. -/
theorem drop_set_of_lt (l : List Nat) : ∀ (n b m : Nat), n < m →
    (l.set n b).drop m = l.drop m := by
  induction l with
  | nil => intro n b m _; simp
  | cons a l ih =>
    intro n b m h
    cases n with
    | zero =>
      cases m with
      | zero => omega
      | succ k => simp
    | succ n' =>
      cases m with
      | zero => omega
      | succ k =>
        simp only [List.set_cons_succ, List.drop_succ_cons]
        exact ih n' b k (by omega)

/-- Sequential writes that stay within the list replace the corresponding
segment. -/
theorem setSeq_eq (bs : List Nat) : ∀ (data : List Nat) (idx : Nat),
    idx + bs.length ≤ data.length →
    setSeq data idx bs = data.take idx ++ bs ++ data.drop (idx + bs.length) := by
  induction bs with
  | nil =>
    intro data idx h
    simp [setSeq, List.take_append_drop]
  | cons b bs ih =>
    intro data idx h
    simp only [List.length_cons] at h
    have hidx : idx < data.length := by omega
    have hlen : (data.set idx b).length = data.length := List.length_set data idx b
    have h2 : (idx + 1) + bs.length ≤ (data.set idx b).length := by omega
    simp only [setSeq, ih _ _ h2]
    rw [take_set_succ data idx b hidx]
    rw [drop_set_of_lt data idx b _ (by omega : idx < idx + 1 + bs.length)]
    have harith : idx + 1 + bs.length = idx + (bs.length + 1) := by omega
    rw [harith]
    simp

/-- On a failed stream the P5 row loop does nothing: every read fails and
the buffer entries stay unmodified. -/
theorem p5Row_fail (jw : Nat) : ∀ (n i : Nat) (data buf : List Nat),
    p5Row jw n i data ⟨buf, true⟩ = (data, ⟨buf, true⟩) := by
  intro n
  induction n with
  | zero => intro i data buf; rfl
  | succ n ih =>
    intro i data buf
    simp [p5Row, readByte, ih]

/-- One P5 row on a good stream: the first n buffered bytes are written at
consecutive indices starting at i + jw; if fewer than n bytes remain the
stream ends failed and the missing entries are untouched. -/
theorem p5Row_run (jw : Nat) : ∀ (n i : Nat) (data bs : List Nat),
    p5Row jw n i data ⟨bs, false⟩ =
      (setSeq data (i + jw) (bs.take n),
       if n ≤ bs.length then ⟨bs.drop n, false⟩ else ⟨[], true⟩) := by
  intro n
  induction n with
  | zero =>
    intro i data bs
    simp [p5Row, setSeq]
  | succ n ih =>
    intro i data bs
    cases bs with
    | nil =>
      simp [p5Row, readByte, p5Row_fail, setSeq]
    | cons b bs =>
      have harith : i + 1 + jw = i + jw + 1 := by omega
      simp only [p5Row, readByte, Bool.false_eq_true, if_false, List.take_succ_cons,
        List.drop_succ_cons, List.length_cons, Nat.add_le_add_iff_right, setSeq]
      rw [ih (i + 1) (data.set (i + jw) b) bs, harith]

/-- On a failed stream the P5 row-loop does nothing. -/
theorem p5Rows_fail (w : Nat) : ∀ (m j : Nat) (data buf : List Nat),
    p5Rows w m j data ⟨buf, true⟩ = (data, ⟨buf, true⟩) := by
  intro m
  induction m with
  | zero => intro j data buf; rfl
  | succ m ih =>
    intro j data buf
    simp [p5Rows, p5Row_fail, ih]

/-- The whole P5 decode on a good stream writes the first m * w buffered
bytes row-major starting at index j * w; a shortfall leaves the remaining
entries untouched and the stream failed. -/
theorem p5Rows_run (w : Nat) : ∀ (m j : Nat) (data bs : List Nat),
    p5Rows w m j data ⟨bs, false⟩ =
      (setSeq data (j * w) (bs.take (m * w)),
       if m * w ≤ bs.length then ⟨bs.drop (m * w), false⟩ else ⟨[], true⟩) := by
  intro m
  induction m with
  | zero =>
    intro j data bs
    simp [p5Rows, setSeq]
  | succ m ih =>
    intro j data bs
    have hmul : (m + 1) * w = m * w + w := by rw [Nat.succ_mul]
    simp only [p5Rows, p5Row_run, Nat.zero_add]
    by_cases h : w ≤ bs.length
    · simp only [if_pos h]
      rw [ih (j + 1) (setSeq data (j * w) (bs.take w)) (bs.drop w)]
      have hlentake : (bs.take w).length = w := List.length_take_of_le h
      have hset : setSeq (setSeq data (j * w) (bs.take w)) ((j + 1) * w)
          ((bs.drop w).take (m * w)) = setSeq data (j * w) (bs.take ((m + 1) * w)) := by
        have hidx : (j + 1) * w = j * w + (bs.take w).length := by rw [hlentake, Nat.succ_mul]
        rw [hidx, ← setSeq_append]
        have h1 : (m + 1) * w = w + m * w := by omega
        rw [h1, List.take_add]
      rw [hset]
      have hlendrop : (bs.drop w).length = bs.length - w := List.length_drop w bs
      have hdrop : (bs.drop w).drop (m * w) = bs.drop ((m + 1) * w) := by
        rw [List.drop_drop]
        have : w + m * w = (m + 1) * w := by omega
        rw [this]
      by_cases h2 : (m + 1) * w ≤ bs.length
      · have h2a : m * w ≤ (bs.drop w).length := by rw [hlendrop]; omega
        rw [if_pos h2, if_pos h2a, hdrop]
      · have h2a : ¬ m * w ≤ (bs.drop w).length := by rw [hlendrop]; omega
        rw [if_neg h2, if_neg h2a]
    · simp only [if_neg h]
      rw [p5Rows_fail]
      have hble : bs.length ≤ w := by omega
      have h1 : bs.take w = bs := List.take_of_length_le hble
      have h2 : bs.take ((m + 1) * w) = bs := by
        apply List.take_of_length_le
        omega
      have hcond : ¬ (m + 1) * w ≤ bs.length := by omega
      rw [h1, h2, if_neg hcond]

/-- Extraction variant of extractUInt_digits with no leading whitespace. -/
theorem extractUInt_digits0 (maxRep : Nat) (ds post : List Nat)
    (hne : ds ≠ [])
    (hds : ∀ c ∈ ds, isDigitB c = true)
    (hpost : ∀ c, post.head? = some c → isDigitB c = false)
    (hv : digitsVal ds ≤ maxRep) :
    extractUInt maxRep ⟨ds ++ post, false⟩ = (some (digitsVal ds), ⟨post, false⟩) := by
  have h := extractUInt_digits maxRep [] ds post (by intro c hc; simp at hc) hne hds hpost hv
  simpa using h

/-- Extraction variant of extractUInt_digits with one leading whitespace
character. -/
theorem extractUInt_digits1 (maxRep c : Nat) (ds post : List Nat)
    (hc : isspaceB c = true)
    (hne : ds ≠ [])
    (hds : ∀ d ∈ ds, isDigitB d = true)
    (hpost : ∀ d, post.head? = some d → isDigitB d = false)
    (hv : digitsVal ds ≤ maxRep) :
    extractUInt maxRep ⟨c :: (ds ++ post), false⟩ = (some (digitsVal ds), ⟨post, false⟩) := by
  have h := extractUInt_digits maxRep [c] ds post
    (by intro d hd; simp at hd; subst hd; exact hc) hne hds hpost hv
  simpa using h

/-- Loading a well-formed P5 file from a default-constructed image: the
magic line is P5, the width, height and max-value tokens are nonempty digit
strings, the max-value is at most 255, the dimensions are representable and
their product does not overflow, there are at most width * height pixel
bytes and the first pixel byte is not whitespace.  The load returns true,
the parsed header fields are stored, and the buffer is the pixel data
zero-padded to width * height entries. -/
theorem load_p5_general (Wds Hds Mds data : List Nat)
    (hW : Wds ≠ []) (hWd : ∀ c ∈ Wds, isDigitB c = true)
    (hH : Hds ≠ []) (hHd : ∀ c ∈ Hds, isDigitB c = true)
    (hM : Mds ≠ []) (hMd : ∀ c ∈ Mds, isDigitB c = true)
    (hWv : digitsVal Wds < 4294967296) (hHv : digitsVal Hds < 4294967296)
    (hMv : digitsVal Mds ≤ 255)
    (hsz : digitsVal Wds * digitsVal Hds < 4294967296)
    (hlen : data.length ≤ digitsVal Wds * digitsVal Hds)
    (hhead : ∀ c, data.head? = some c → isspaceB c = false) :
    LoadImage defaultGraymap (ppmFile p5Magic Wds Hds Mds data) =
      (true, ⟨data ++ List.replicate (digitsVal Wds * digitsVal Hds - data.length) 0,
              digitsVal Wds, digitsVal Hds, digitsVal Mds⟩) := by
  obtain ⟨cW, csW, rfl⟩ := List.exists_cons_of_ne_nil hW
  have hcWdig : isDigitB cW = true := hWd cW (List.mem_cons_self cW csW)
  have hcWb : 48 ≤ cW ∧ cW ≤ 57 := by simpa [isDigitB, decide_eq_true_eq] using hcWdig
  simp only [LoadImage, ppmFile]
  rw [getlineStr_append _ _ (by decide : (10:Nat) ∉ p5Magic)]
  rw [if_neg (by decide :
    ¬(p5Magic ≠ p1Magic ∧ p5Magic ≠ p2Magic ∧ p5Magic ≠ p4Magic ∧ p5Magic ≠ p5Magic))]
  simp only [loadImageAfterMagic]
  have hhd : ∀ Y : List Nat, ((cW :: csW) ++ Y).head? = some cW := fun _ => rfl
  have hemp : ∀ Y : List Nat, ((cW :: csW) ++ Y).isEmpty = false := fun _ => rfl
  have h35 : ¬((some cW : Option Nat) = some 35) := by
    simp only [Option.some.injEq]
    omega
  have hp1 : ∀ d, (32 :: (Hds ++ 10 :: (Mds ++ 10 :: data))).head? = some d →
      isDigitB d = false := by
    intro d hd
    simp only [List.head?_cons, Option.some.injEq] at hd
    subst hd
    decide
  have hp2 : ∀ d, (10 :: (Mds ++ 10 :: data)).head? = some d → isDigitB d = false := by
    intro d hd
    simp only [List.head?_cons, Option.some.injEq] at hd
    subst hd
    decide
  have hp3 : ∀ d, (10 :: data).head? = some d → isDigitB d = false := by
    intro d hd
    simp only [List.head?_cons, Option.some.injEq] at hd
    subst hd
    decide
  rw [hhd]
  rw [if_neg h35]
  rw [hemp]
  rw [extractUInt_digits0 4294967295 (cW :: csW) (32 :: (Hds ++ 10 :: (Mds ++ 10 :: data)))
    hW hWd hp1 (by omega)]
  simp only [Option.getD_some, defaultGraymap]
  rw [extractUInt_digits1 4294967295 32 Hds (10 :: (Mds ++ 10 :: data)) (by decide)
    hH hHd hp2 (by omega)]
  simp only [Option.getD_some]
  rw [extractUInt_digits1 65535 10 Mds (10 :: data) (by decide) hM hMd hp3 (by omega)]
  simp only [Option.getD_some, needsMax_true, if_true]
  rw [if_neg (show ¬(255 < digitsVal Mds) from by omega)]
  rw [Nat.mod_eq_of_lt hsz, listResize_nil]
  have hskipd : skipWs data = data := by
    cases data with
    | nil => rfl
    | cons c cs => exact skipWs_cons_nws c cs (hhead c rfl)
  have hskip : skipWsStream ⟨10 :: data, false⟩ = ⟨data, false⟩ := by
    simp only [skipWsStream, Bool.false_eq_true, if_false]
    rw [show skipWs (10 :: data) = skipWs data from by
      simp [skipWs, show isspaceB 10 = true from by decide]]
    rw [hskipd]
  simp only [decodePixels]
  rw [if_neg (show ¬(p5Magic = p1Magic) from by decide),
      if_neg (show ¬(p5Magic = p2Magic) from by decide),
      if_neg (show ¬(p5Magic = p4Magic) from by decide)]
  simp only [eq_self_iff_true, if_true]
  rw [hskip]
  rw [p5Rows_run]
  simp only [Nat.zero_mul]
  rw [List.take_of_length_le (show data.length ≤ digitsVal Hds * digitsVal (cW :: csW) from by
    rw [Nat.mul_comm]
    exact hlen)]
  rw [setSeq_eq data (List.replicate (digitsVal (cW :: csW) * digitsVal Hds) 0) 0
    (by simp only [List.length_replicate, Nat.zero_add]; exact hlen)]
  simp only [List.take_zero, List.nil_append, Nat.zero_add, List.drop_replicate]

/-- Claim C1: the guard of the max-value block is a tautology, so LoadImage
always consumes a max-value token and applies the larger-than-255 check,
for the bit formats P1 and P4 as well: the loader is extensionally equal to
the variant that reads the max-value unconditionally, and concrete P1 and
P4 files whose third header token is 300 are rejected by that check. -/
theorem spec_C1 :
    (∀ fb : List Nat, needsMax fb = true)
    ∧ (∀ (img : GraymapImage) (file : List Nat),
        LoadImage img file = LoadImageAlwaysMax img file)
    ∧ (LoadImage defaultGraymap [80, 49, 10, 49, 32, 49, 10, 51, 48, 48, 10, 48, 10]).1 = false
    ∧ (LoadImage defaultGraymap [80, 52, 10, 56, 32, 49, 10, 51, 48, 48, 10, 176]).1 = false := by
  refine ⟨needsMax_true, ?_, by decide, by decide⟩
  intro img file
  simp only [LoadImage, LoadImageAlwaysMax]
  split
  · rfl
  · simp only [loadImageAfterMagic, loadImageAfterMagicAlwaysMax, needsMax_true, if_true]

/-- Claim C2, counterexample: LoadImage on the file P2, 2 2, 300 returns
false through the max-value check, yet the image is mutated: IsInitialized
becomes true and the object no longer equals the default-constructed one. -/
theorem spec_C2_counterexample :
    (LoadImage defaultGraymap [80, 50, 10, 50, 32, 50, 10, 51, 48, 48, 10]).1 = false
    ∧ IsInitialized (LoadImage defaultGraymap [80, 50, 10, 50, 32, 50, 10, 51, 48, 48, 10]).2 = true
    ∧ (LoadImage defaultGraymap [80, 50, 10, 50, 32, 50, 10, 51, 48, 48, 10]).2 ≠ defaultGraymap := by
  exact ⟨by decide, by decide, by decide⟩

/-- Claim C2 as amended: a failed load with a bad magic token leaves the
image unchanged, but a failure of the max-value check leaves width, height,
the resized zero buffer and the parsed max-value already stored, as the
concrete file P2, 3 3, 300 shows. -/
theorem spec_C2_amended :
    (∀ (img : GraymapImage) (file : List Nat),
      ((getlineStr file).1 ≠ p1Magic ∧ (getlineStr file).1 ≠ p2Magic ∧
       (getlineStr file).1 ≠ p4Magic ∧ (getlineStr file).1 ≠ p5Magic) →
      LoadImage img file = (false, img))
    ∧ LoadImage defaultGraymap [80, 50, 10, 51, 32, 51, 10, 51, 48, 48, 10] =
        (false, ⟨List.replicate 9 0, 3, 3, 300⟩) := by
  constructor
  · intro img file h
    simp only [LoadImage]
    rw [if_pos h]
  · decide

/-- Claim C2 witness: the amended theorem applied to the magic token YY. -/
theorem spec_C2_witness :
    LoadImage defaultGraymap [89, 89, 10] = (false, defaultGraymap) :=
  spec_C2_amended.1 defaultGraymap [89, 89, 10] (by decide)

/-- Claim C3: loading a well-formed P5 file with digit-string width, height
and max-value tokens, max-value at most 255, non-overflowing dimensions and
exactly width * height pixel bytes whose first byte is not whitespace
succeeds, stores the pixel bytes verbatim as the buffer, and GetPixel x y
returns the byte at row-major position y * width + x. -/
theorem spec_C3 (Wds Hds Mds data : List Nat)
    (hW : Wds ≠ []) (hWd : ∀ c ∈ Wds, isDigitB c = true)
    (hH : Hds ≠ []) (hHd : ∀ c ∈ Hds, isDigitB c = true)
    (hM : Mds ≠ []) (hMd : ∀ c ∈ Mds, isDigitB c = true)
    (hWv : digitsVal Wds < 4294967296) (hHv : digitsVal Hds < 4294967296)
    (hMv : digitsVal Mds ≤ 255)
    (hsz : digitsVal Wds * digitsVal Hds < 4294967296)
    (hlen : data.length = digitsVal Wds * digitsVal Hds)
    (hhead : ∀ c, data.head? = some c → isspaceB c = false) :
    LoadImage defaultGraymap (ppmFile p5Magic Wds Hds Mds data) =
      (true, ⟨data, digitsVal Wds, digitsVal Hds, digitsVal Mds⟩)
    ∧ ∀ x y, x < digitsVal Wds → y < digitsVal Hds →
        GetPixel ⟨data, digitsVal Wds, digitsVal Hds, digitsVal Mds⟩ x y =
          data.get? (y * digitsVal Wds + x) := by
  constructor
  · have h := load_p5_general Wds Hds Mds data hW hWd hH hHd hM hMd hWv hHv hMv hsz
      (Nat.le_of_eq hlen) hhead
    rw [h, hlen]
    simp
  · intro x y hx hy
    have hmul : (y + 1) * digitsVal Wds = y * digitsVal Wds + digitsVal Wds :=
      Nat.succ_mul y (digitsVal Wds)
    have hle : (y + 1) * digitsVal Wds ≤ digitsVal Hds * digitsVal Wds :=
      Nat.mul_le_mul_right (digitsVal Wds) hy
    have hcomm : digitsVal Hds * digitsVal Wds = digitsVal Wds * digitsVal Hds :=
      Nat.mul_comm _ _
    have hidx : y * digitsVal Wds + x < digitsVal Wds * digitsVal Hds := by omega
    simp only [GetPixel]
    rw [Nat.mod_eq_of_lt (by omega)]

/-- Claim C3 witness: the P5 file with header 2 2 255 and pixel bytes
5 6 7 8 loads to exactly that buffer, and the pixel at 1 1 is the byte at
row-major index 3. -/
theorem spec_C3_witness :
    LoadImage defaultGraymap (ppmFile p5Magic [50] [50] [50, 53, 53] [5, 6, 7, 8]) =
      (true, ⟨[5, 6, 7, 8], 2, 2, 255⟩)
    ∧ GetPixel ⟨[5, 6, 7, 8], 2, 2, 255⟩ 1 1 = some 8 := by
  have h := spec_C3 [50] [50] [50, 53, 53] [5, 6, 7, 8] (by decide) (by decide) (by decide)
    (by decide) (by decide) (by decide) (by decide) (by decide) (by decide) (by decide)
    (by decide)
    (by intro c hc; simp only [List.head?_cons, Option.some.injEq] at hc; subst hc; decide)
  exact ⟨h.1, (h.2 1 1 (by decide) (by decide)).trans rfl⟩

/-- Claim C4: the hand-constructed P2 file with tokens 0 128 255 64 does
not decode to the buffer 0 128 255 64; because operator>> into unsigned
char extracts single characters, the stored bytes are the character codes
48 49 50 56 of the first four non-whitespace characters. -/
theorem spec_C4_behavior :
    LoadImage defaultGraymap
      [80, 50, 10, 50, 32, 50, 10, 50, 53, 53, 10,
       48, 32, 49, 50, 56, 32, 50, 53, 53, 32, 54, 52, 10] =
      (true, ⟨[48, 49, 50, 56], 2, 2, 255⟩) := by
  decide

/-- Claim C5: the valid P1 file with tokens 0 1 1 0 decodes to the buffer
207 207 208 0, not to values in the set 0 and 255: the tautological guard
consumes the first pixel token 0 as the max-value, and the character codes
49 49 48 of the remaining tokens are multiplied by 255 in unsigned char
arithmetic. -/
theorem spec_C5_behavior :
    LoadImage defaultGraymap [80, 49, 10, 50, 32, 50, 10, 48, 32, 49, 32, 49, 32, 48, 10] =
      (true, ⟨[207, 207, 208, 0], 2, 2, 0⟩) := by
  decide

/-- Claim C6: the P4 file of width 8 and height 1 with the single data byte
176 decodes to eight zero pixels, not to 255 0 255 255 0 0 0 0: the
tautological guard tries to parse a max-value out of the binary data byte,
the conversion fails, the stream is poisoned, and every packed-bit read
yields 0. -/
theorem spec_C6_behavior :
    LoadImage defaultGraymap [80, 52, 10, 56, 32, 49, 10, 176] =
      (true, ⟨[0, 0, 0, 0, 0, 0, 0, 0], 8, 1, 0⟩)
    ∧ GetPixel (LoadImage defaultGraymap [80, 52, 10, 56, 32, 49, 10, 176]).2 0 0 = some 0 := by
  exact ⟨by decide, by decide⟩

/-- Claim C7, counterexample: on a loaded 2 by 2 image, GetPixel 2 0 does
not fail: the flat index wraps into the second row and returns the third
stored byte. -/
theorem spec_C7_counterexample :
    LoadImage defaultGraymap [80, 53, 10, 50, 32, 50, 10, 50, 53, 53, 10, 5, 6, 7, 8] =
      (true, ⟨[5, 6, 7, 8], 2, 2, 255⟩)
    ∧ GetPixel ⟨[5, 6, 7, 8], 2, 2, 255⟩ 2 0 = some 7 := by
  exact ⟨by decide, by decide⟩

/-- Claim C7 as amended: GetPixel x y on a W by H image with buffer length
W * H fails exactly when the flat index y * W + x reaches W * H; GetPixel
0 H always fails, but GetPixel W 0 succeeds whenever W is at least 1 and H
at least 2, returning the byte at flat index W. -/
theorem spec_C7_amended (d : List Nat) (W H M x y : Nat)
    (hlen : d.length = W * H) (hsz : W * H < 4294967296)
    (hxy : y * W + x < 4294967296) :
    (y * W + x < W * H → GetPixel ⟨d, W, H, M⟩ x y = d.get? (y * W + x)
        ∧ GetPixel ⟨d, W, H, M⟩ x y ≠ none)
    ∧ (W * H ≤ y * W + x → GetPixel ⟨d, W, H, M⟩ x y = none)
    ∧ (1 ≤ W → 2 ≤ H → GetPixel ⟨d, W, H, M⟩ W 0 ≠ none)
    ∧ GetPixel ⟨d, W, H, M⟩ 0 H = none := by
  refine ⟨?_, ?_, ?_, ?_⟩
  · intro hlt
    constructor
    · simp only [GetPixel]
      rw [Nat.mod_eq_of_lt hxy]
    · simp only [GetPixel]
      rw [Nat.mod_eq_of_lt hxy]
      simp only [ne_eq, List.get?_eq_none]
      omega
  · intro hge
    simp only [GetPixel]
    rw [Nat.mod_eq_of_lt hxy]
    exact List.get?_eq_none.mpr (by omega)
  · intro hw hh
    have h2 : W * 2 ≤ W * H := Nat.mul_le_mul_left W hh
    simp only [GetPixel, Nat.zero_mul, Nat.zero_add]
    rw [Nat.mod_eq_of_lt (by omega)]
    simp only [ne_eq, List.get?_eq_none]
    omega
  · simp only [GetPixel, Nat.add_zero]
    have hcomm : H * W = W * H := Nat.mul_comm H W
    rw [Nat.mod_eq_of_lt (by omega)]
    exact List.get?_eq_none.mpr (by omega)

/-- Claim C7 witness: the amended theorem applied to the 2 by 2 image with
buffer 5 6 7 8: GetPixel 2 0 succeeds and GetPixel 0 2 fails. -/
theorem spec_C7_witness :
    GetPixel ⟨[5, 6, 7, 8], 2, 2, 255⟩ 2 0 ≠ none
    ∧ GetPixel ⟨[5, 6, 7, 8], 2, 2, 255⟩ 0 2 = none := by
  have h := spec_C7_amended [5, 6, 7, 8] 2 2 255 2 0 (by decide) (by decide) (by decide)
  exact ⟨h.2.2.1 (by decide) (by decide), h.2.2.2⟩

/-- Claim C8: a P5 file whose pixel data is shorter than width * height
still loads with return value true, the available bytes are stored, and
every buffer entry past the data stays at its zero default. -/
theorem spec_C8 (Wds Hds Mds data : List Nat)
    (hW : Wds ≠ []) (hWd : ∀ c ∈ Wds, isDigitB c = true)
    (hH : Hds ≠ []) (hHd : ∀ c ∈ Hds, isDigitB c = true)
    (hM : Mds ≠ []) (hMd : ∀ c ∈ Mds, isDigitB c = true)
    (hWv : digitsVal Wds < 4294967296) (hHv : digitsVal Hds < 4294967296)
    (hMv : digitsVal Mds ≤ 255)
    (hsz : digitsVal Wds * digitsVal Hds < 4294967296)
    (hlen : data.length < digitsVal Wds * digitsVal Hds)
    (hhead : ∀ c, data.head? = some c → isspaceB c = false) :
    LoadImage defaultGraymap (ppmFile p5Magic Wds Hds Mds data) =
      (true, ⟨data ++ List.replicate (digitsVal Wds * digitsVal Hds - data.length) 0,
              digitsVal Wds, digitsVal Hds, digitsVal Mds⟩) :=
  load_p5_general Wds Hds Mds data hW hWd hH hHd hM hMd hWv hHv hMv hsz
    (Nat.le_of_lt hlen) hhead

/-- Claim C8 witness: a P5 file declaring 4 by 4 with only 8 data bytes
loads with the 8 bytes followed by 8 zeros. -/
theorem spec_C8_witness :
    LoadImage defaultGraymap
      (ppmFile p5Magic [52] [52] [50, 53, 53] [1, 2, 3, 4, 5, 6, 7, 8]) =
      (true, ⟨[1, 2, 3, 4, 5, 6, 7, 8, 0, 0, 0, 0, 0, 0, 0, 0], 4, 4, 255⟩) := by
  have h := spec_C8 [52] [52] [50, 53, 53] [1, 2, 3, 4, 5, 6, 7, 8] (by decide) (by decide)
    (by decide) (by decide) (by decide) (by decide) (by decide) (by decide) (by decide)
    (by decide) (by decide)
    (by intro c hc; simp only [List.head?_cons, Option.some.injEq] at hc; subst hc; decide)
  rw [h]
  decide

/-- Header parse ending at the max-value rejection: for any format token,
a header whose width, height and max-value are digit strings with the
max-value above 255 but representable makes the body of LoadImage return
false with the header fields already stored and the buffer resized to
zeros. -/
theorem loadImageAfterMagic_maxfail (fb Wds Hds Mds body : List Nat)
    (hW : Wds ≠ []) (hWd : ∀ c ∈ Wds, isDigitB c = true)
    (hH : Hds ≠ []) (hHd : ∀ c ∈ Hds, isDigitB c = true)
    (hM : Mds ≠ []) (hMd : ∀ c ∈ Mds, isDigitB c = true)
    (hWv : digitsVal Wds < 4294967296) (hHv : digitsVal Hds < 4294967296)
    (hMv : 255 < digitsVal Mds) (hMv2 : digitsVal Mds ≤ 65535)
    (hsz : digitsVal Wds * digitsVal Hds < 4294967296) :
    loadImageAfterMagic defaultGraymap fb
      (Wds ++ 32 :: (Hds ++ 10 :: (Mds ++ 10 :: body))) =
      (false, ⟨List.replicate (digitsVal Wds * digitsVal Hds) 0,
               digitsVal Wds, digitsVal Hds, digitsVal Mds⟩) := by
  obtain ⟨cW, csW, rfl⟩ := List.exists_cons_of_ne_nil hW
  have hcWdig : isDigitB cW = true := hWd cW (List.mem_cons_self cW csW)
  have hcWb : 48 ≤ cW ∧ cW ≤ 57 := by simpa [isDigitB, decide_eq_true_eq] using hcWdig
  simp only [loadImageAfterMagic]
  have hhd : ∀ Y : List Nat, ((cW :: csW) ++ Y).head? = some cW := fun _ => rfl
  have hemp : ∀ Y : List Nat, ((cW :: csW) ++ Y).isEmpty = false := fun _ => rfl
  have h35 : ¬((some cW : Option Nat) = some 35) := by
    simp only [Option.some.injEq]
    omega
  have hp1 : ∀ d, (32 :: (Hds ++ 10 :: (Mds ++ 10 :: body))).head? = some d →
      isDigitB d = false := by
    intro d hd
    simp only [List.head?_cons, Option.some.injEq] at hd
    subst hd
    decide
  have hp2 : ∀ d, (10 :: (Mds ++ 10 :: body)).head? = some d → isDigitB d = false := by
    intro d hd
    simp only [List.head?_cons, Option.some.injEq] at hd
    subst hd
    decide
  have hp3 : ∀ d, (10 :: body).head? = some d → isDigitB d = false := by
    intro d hd
    simp only [List.head?_cons, Option.some.injEq] at hd
    subst hd
    decide
  rw [hhd]
  rw [if_neg h35]
  rw [hemp]
  rw [extractUInt_digits0 4294967295 (cW :: csW) (32 :: (Hds ++ 10 :: (Mds ++ 10 :: body)))
    hW hWd hp1 (by omega)]
  simp only [Option.getD_some, defaultGraymap]
  rw [extractUInt_digits1 4294967295 32 Hds (10 :: (Mds ++ 10 :: body)) (by decide)
    hH hHd hp2 (by omega)]
  simp only [Option.getD_some]
  rw [extractUInt_digits1 65535 10 Mds (10 :: body) (by decide) hM hMd hp3 (by omega)]
  simp only [Option.getD_some, needsMax_true, if_true]
  rw [if_pos hMv]
  rw [Nat.mod_eq_of_lt hsz, listResize_nil]

/-- Claim C9: for each of the four accepted magic tokens, a file whose
parsed max-value token exceeds 255 makes LoadImage return false at the
max-value check, before any pixel decoding touches the buffer: the buffer
is left as the freshly resized zeros. -/
theorem spec_C9 (fb Wds Hds Mds body : List Nat)
    (hfb : fb = p1Magic ∨ fb = p2Magic ∨ fb = p4Magic ∨ fb = p5Magic)
    (hW : Wds ≠ []) (hWd : ∀ c ∈ Wds, isDigitB c = true)
    (hH : Hds ≠ []) (hHd : ∀ c ∈ Hds, isDigitB c = true)
    (hM : Mds ≠ []) (hMd : ∀ c ∈ Mds, isDigitB c = true)
    (hWv : digitsVal Wds < 4294967296) (hHv : digitsVal Hds < 4294967296)
    (hMv : 255 < digitsVal Mds) (hMv2 : digitsVal Mds ≤ 65535)
    (hsz : digitsVal Wds * digitsVal Hds < 4294967296) :
    LoadImage defaultGraymap (ppmFile fb Wds Hds Mds body) =
      (false, ⟨List.replicate (digitsVal Wds * digitsVal Hds) 0,
               digitsVal Wds, digitsVal Hds, digitsVal Mds⟩) := by
  have hbody := loadImageAfterMagic_maxfail fb Wds Hds Mds body hW hWd hH hHd hM hMd
    hWv hHv hMv hMv2 hsz
  simp only [LoadImage, ppmFile]
  rcases hfb with h | h | h | h <;> subst h
  · rw [getlineStr_append _ _ (by decide : (10:Nat) ∉ p1Magic)]
    rw [if_neg (by decide :
      ¬(p1Magic ≠ p1Magic ∧ p1Magic ≠ p2Magic ∧ p1Magic ≠ p4Magic ∧ p1Magic ≠ p5Magic))]
    exact hbody
  · rw [getlineStr_append _ _ (by decide : (10:Nat) ∉ p2Magic)]
    rw [if_neg (by decide :
      ¬(p2Magic ≠ p1Magic ∧ p2Magic ≠ p2Magic ∧ p2Magic ≠ p4Magic ∧ p2Magic ≠ p5Magic))]
    exact hbody
  · rw [getlineStr_append _ _ (by decide : (10:Nat) ∉ p4Magic)]
    rw [if_neg (by decide :
      ¬(p4Magic ≠ p1Magic ∧ p4Magic ≠ p2Magic ∧ p4Magic ≠ p4Magic ∧ p4Magic ≠ p5Magic))]
    exact hbody
  · rw [getlineStr_append _ _ (by decide : (10:Nat) ∉ p5Magic)]
    rw [if_neg (by decide :
      ¬(p5Magic ≠ p1Magic ∧ p5Magic ≠ p2Magic ∧ p5Magic ≠ p4Magic ∧ p5Magic ≠ p5Magic))]
    exact hbody

/-- Claim C9 witness: a P2 header with max-value 300 is rejected. -/
theorem spec_C9_witness :
    LoadImage defaultGraymap (ppmFile p2Magic [50] [50] [51, 48, 48] []) =
      (false, ⟨[0, 0, 0, 0], 2, 2, 300⟩) := by
  have h := spec_C9 p2Magic [50] [50] [51, 48, 48] [] (Or.inr (Or.inl rfl)) (by decide)
    (by decide) (by decide) (by decide) (by decide) (by decide) (by decide) (by decide)
    (by decide) (by decide) (by decide)
  rw [h]
  decide

/-- Claim C10: a file that cannot be opened, and any file whose first line
is not exactly one of P1, P2, P4, P5, makes LoadImage return false with the
image untouched; on the default-constructed image the accessors then still
report uninitialized, width 0, height 0 and max-value 255. -/
theorem spec_C10 :
    (∀ img : GraymapImage, LoadImageFile img none = (false, img))
    ∧ (∀ (img : GraymapImage) (file : List Nat),
        ((getlineStr file).1 ≠ p1Magic ∧ (getlineStr file).1 ≠ p2Magic ∧
         (getlineStr file).1 ≠ p4Magic ∧ (getlineStr file).1 ≠ p5Magic) →
        LoadImage img file = (false, img))
    ∧ IsInitialized defaultGraymap = false
    ∧ GetWidth defaultGraymap = 0
    ∧ GetHeight defaultGraymap = 0
    ∧ GetMaxValue defaultGraymap = 255 := by
  refine ⟨fun img => rfl, ?_, by decide, rfl, rfl, rfl⟩
  intro img file h
  simp only [LoadImage]
  rw [if_pos h]

/-- Claim C10 witness: the unopenable file and the magic token XX both
leave the default image untouched. -/
theorem spec_C10_witness :
    LoadImageFile defaultGraymap none = (false, defaultGraymap)
    ∧ LoadImage defaultGraymap [88, 88, 10] = (false, defaultGraymap) :=
  ⟨spec_C10.1 defaultGraymap, spec_C10.2.1 defaultGraymap [88, 88, 10] (by decide)⟩

end Graymap
